import Mathlib

/-!
Verification of the koa-serve-static repository: a thin Koa middleware
adapter (src/index.js) around the serve-static file-serving engine.
The adapter is embedded directly from src/index.js.  The engine itself is
not part of src/ (only its tests and its caller are), so it is modelled
from the specification document (sections 3, 4 and 6): path resolution
with traversal protection, conditional GET, byte-range negotiation and
the fallthrough / redirect policy.
-/

namespace KoaServeStatic

/-- Text is modelled as a list of characters. -/
abbrev Str := List Char

/-! ## Decimal rendering and parsing of natural numbers -/

/-- The ASCII digit character for a value below ten. -/
def digitToChar (d : Nat) : Char := Char.ofNat (48 + d)

/-- Fuel-driven decimal rendering (structural so the kernel can evaluate it). -/
def natToCharsAux : Nat → Nat → Str
  | 0, _ => []
  | fuel + 1, n =>
    if n < 10 then [digitToChar n]
    else natToCharsAux fuel (n / 10) ++ [digitToChar (n % 10)]

/-- Decimal rendering of a natural number, most significant digit first. -/
def natToChars (n : Nat) : Str := natToCharsAux (n + 1) n

/-- Is the character an ASCII decimal digit? -/
def isDigitC (c : Char) : Bool := 48 ≤ c.toNat && c.toNat ≤ 57

/-- Value of a digit string read most significant digit first. -/
def digitsVal (cs : Str) : Nat := cs.foldl (fun a c => a * 10 + (c.toNat - 48)) 0

/-- Parse a non-empty all-digit string as a natural number. -/
def parseNatChars (cs : Str) : Option Nat :=
  if cs ≠ [] ∧ cs.all isDigitC = true then some (digitsVal cs) else none

theorem digitToChar_toNat {d : Nat} (h : d < 10) : (digitToChar d).toNat = 48 + d := by
  interval_cases d <;> decide

theorem isDigitC_digitToChar {d : Nat} (h : d < 10) : isDigitC (digitToChar d) = true := by
  interval_cases d <;> decide

theorem natToCharsAux_ne_nil {fuel n : Nat} (h : n < fuel) : natToCharsAux fuel n ≠ [] := by
  cases fuel with
  | zero => omega
  | succ f =>
    unfold natToCharsAux
    split
    · simp
    · simp

theorem natToChars_ne_nil (n : Nat) : natToChars n ≠ [] :=
  natToCharsAux_ne_nil (Nat.lt_succ_self n)

theorem natToCharsAux_digits {fuel : Nat} : ∀ {n : Nat}, n < fuel →
    ∀ c ∈ natToCharsAux fuel n, isDigitC c = true := by
  induction fuel with
  | zero => intro n h; omega
  | succ f ih =>
    intro n _ c hc
    unfold natToCharsAux at hc
    by_cases h10 : n < 10
    · rw [if_pos h10] at hc
      simp only [List.mem_singleton] at hc
      subst hc; exact isDigitC_digitToChar h10
    · rw [if_neg h10] at hc
      rcases List.mem_append.1 hc with h1 | h2
      · exact ih (by omega) c h1
      · simp only [List.mem_singleton] at h2
        subst h2; exact isDigitC_digitToChar (Nat.mod_lt _ (by omega))

theorem natToChars_digits (n : Nat) : ∀ c ∈ natToChars n, isDigitC c = true :=
  natToCharsAux_digits (Nat.lt_succ_self n)

theorem digitsVal_append_single (cs : Str) (c : Char) :
    digitsVal (cs ++ [c]) = digitsVal cs * 10 + (c.toNat - 48) := by
  simp [digitsVal]

theorem natToCharsAux_val {fuel : Nat} : ∀ {n : Nat}, n < fuel →
    digitsVal (natToCharsAux fuel n) = n := by
  induction fuel with
  | zero => intro n h; omega
  | succ f ih =>
    intro n _
    unfold natToCharsAux
    by_cases h10 : n < 10
    · rw [if_pos h10]
      simp [digitsVal, digitToChar_toNat h10]
    · rw [if_neg h10]
      rw [digitsVal_append_single, ih (by omega),
        digitToChar_toNat (Nat.mod_lt _ (by omega))]
      omega

theorem digitsVal_natToChars (n : Nat) : digitsVal (natToChars n) = n :=
  natToCharsAux_val (Nat.lt_succ_self n)

theorem parseNatChars_natToChars (n : Nat) : parseNatChars (natToChars n) = some n := by
  unfold parseNatChars
  rw [if_pos ⟨natToChars_ne_nil n, List.all_eq_true.2 (natToChars_digits n)⟩,
    digitsVal_natToChars]

theorem not_mem_natToChars_of_not_digit {c : Char} (h : isDigitC c = false) (n : Nat) :
    c ∉ natToChars n := by
  intro hc
  have := natToChars_digits n c hc
  rw [h] at this
  exact Bool.false_ne_true this

/-! ## Splitting character lists on a separator -/

/-- Split a character list at every occurrence of the separator. -/
def splitOnChar (sep : Char) : Str → List Str
  | [] => [[]]
  | c :: rest =>
    if c = sep then [] :: splitOnChar sep rest
    else
      match splitOnChar sep rest with
      | [] => [[c]]
      | g :: gs => (c :: g) :: gs

theorem splitOnChar_ne_nil (sep : Char) (l : Str) : splitOnChar sep l ≠ [] := by
  induction l with
  | nil => simp [splitOnChar]
  | cons c rest ih =>
    unfold splitOnChar
    split
    · simp
    · match h : splitOnChar sep rest with
      | [] => simp
      | g :: gs => simp

theorem splitOnChar_of_not_mem {sep : Char} {l : Str} (h : sep ∉ l) :
    splitOnChar sep l = [l] := by
  induction l with
  | nil => rfl
  | cons c rest ih =>
    simp only [List.mem_cons, not_or] at h
    unfold splitOnChar
    rw [if_neg (fun hc => h.1 hc.symm), ih h.2]

theorem splitOnChar_append {sep : Char} {l₁ : Str} (l₂ : Str) (h : sep ∉ l₁) :
    splitOnChar sep (l₁ ++ sep :: l₂) = l₁ :: splitOnChar sep l₂ := by
  induction l₁ with
  | nil => simp [splitOnChar]
  | cons c rest ih =>
    simp only [List.mem_cons, not_or] at h
    simp only [List.cons_append]
    conv_lhs => rw [splitOnChar]
    rw [if_neg (fun hc => h.1 hc.symm), ih h.2]

/-! ## Percent decoding

Modelled from the spec: the Path Resolver rejects malformed
percent-encoding (BadRequest) and otherwise decodes the raw request path. -/

/-- Value of a hexadecimal digit character. -/
def hexVal (c : Char) : Option Nat :=
  if 48 ≤ c.toNat ∧ c.toNat ≤ 57 then some (c.toNat - 48)
  else if 97 ≤ c.toNat ∧ c.toNat ≤ 102 then some (c.toNat - 87)
  else if 65 ≤ c.toNat ∧ c.toNat ≤ 70 then some (c.toNat - 55)
  else none

/-- Modelled from the spec: percent-decoding of the raw path; a `%` not
followed by two hexadecimal digits is malformed and yields `none`. -/
def decodePct : Str → Option Str
  | [] => some []
  | '%' :: c1 :: c2 :: rest =>
    match hexVal c1, hexVal c2 with
    | some hi, some lo =>
      match decodePct rest with
      | some ds => some (Char.ofNat (16 * hi + lo) :: ds)
      | none => none
    | _, _ => none
  | '%' :: _ => none
  | c :: rest =>
    match decodePct rest with
    | some ds => some (c :: ds)
    | none => none

/-! ## Segment normalization and traversal protection

Modelled from the spec: normalize segments, collapsing `..` only within
the decoded logical path, never allowing escape above root. -/

/-- Modelled from the spec: fold the decoded segments, dropping empty and
`.` segments, letting `..` pop one accumulated segment and signalling an
escape above the root by `none`. -/
def normSegs : List Str → List Str → Option (List Str)
  | [], acc => some acc.reverse
  | s :: rest, acc =>
    if s = "..".data then
      match acc with
      | [] => none
      | _ :: tail => normSegs rest tail
    else if s = [] ∨ s = ".".data then normSegs rest acc
    else normSegs rest (s :: acc)

/-- Does the character list end in a slash? -/
def endsSlash : Str → Bool
  | [] => false
  | [c] => c = '/'
  | _ :: c :: rest => endsSlash (c :: rest)

/-- Result of resolving a request URL against the root. -/
inductive Resolved where
  | malformed : Resolved
  | escape : Resolved
  | ok (segs : List Str) (rawPath : Str) (rawQuery : Str) (trail : Bool) : Resolved
deriving DecidableEq

/-- Is the character anything but the query delimiter? -/
def notQ (c : Char) : Bool := c ≠ '?'

/-- Modelled from the spec: split the URL into path and query, decode the
path, and normalize its segments with traversal protection.  The raw
(undecoded) path and query are kept for the redirect location. -/
def resolveUrl (url : Str) : Resolved :=
  let raw := url.takeWhile notQ
  let rest := url.dropWhile notQ
  match decodePct raw with
  | none => .malformed
  | some dec =>
    match normSegs (splitOnChar '/' dec) [] with
    | none => .escape
    | some segs => .ok segs raw rest (endsSlash raw)

/-! ## Filesystem model and configuration -/

/-- A filesystem entry relative to the configured root. -/
inductive Entry where
  | file (contents : Str) (mtime : Nat) : Entry
  | dir : Entry
deriving DecidableEq

/-- A filesystem: a finite association of root-relative segment lists to
entries. -/
abbrev Fs := List (List Str × Entry)

/-- Look up a root-relative path in the filesystem. -/
def lookupFs : Fs → List Str → Option Entry
  | [], _ => none
  | (p, ent) :: rest, segs => if p = segs then some ent else lookupFs rest segs

/-- Dotfile policy, from the spec data model. -/
inductive Dotfiles where
  | allow : Dotfiles
  | deny : Dotfiles
  | ignore : Dotfiles
deriving DecidableEq

/-- Modelled from the spec: per-mount configuration (`ServeConfig`). -/
structure Config where
  root : Str := []
  fallthrough : Bool := true
  redirect : Bool := true
  dotfiles : Dotfiles := .ignore
  index : List Str := ["index.html".data]
  etag : Bool := true
deriving DecidableEq

/-- An HTTP request as the engine sees it. -/
structure Request where
  method : Str
  url : Str
  rangeH : Option Str := none
  ifNoneMatch : Option Str := none
deriving DecidableEq

/-- The response produced for a request: status, the headers the claims
talk about, the body, and (for content responses) the root-relative path
of the file served. -/
structure Response where
  status : Nat
  location : Option Str := none
  allow : Option Str := none
  contentRange : Option Str := none
  contentLength : Option Nat := none
  etagH : Option Str := none
  body : Str := []
  srcPath : Option (List Str) := none
deriving DecidableEq

/-- Outcome of a request: either pass to the next handler or respond. -/
inductive Outcome where
  | fallthrough : Outcome
  | response (r : Response) : Outcome
deriving DecidableEq

def badRequestResp : Response := { status := 400, body := "BadRequestError".data }

def forbiddenResp : Response := { status := 403, body := "ForbiddenError".data }

def notFoundResp : Response := { status := 404, body := "NotFoundError".data }

def methodNotAllowedResp : Response :=
  { status := 405, allow := some "GET, HEAD".data, body := "MethodNotAllowedError".data }

/-- Not-found conditions fall through or produce a terminal 404. -/
def notFoundOut (cfg : Config) : Outcome :=
  if cfg.fallthrough then .fallthrough else .response notFoundResp

/-! ## Range negotiation

Modelled from the spec: parse `Range: bytes=<spec>` with the forms
`start-end`, `start-` and `-suffixLength`; unparsable headers (and
multi-range requests) are ignored; `start ≥ size` is unsatisfiable;
`end ≥ size` is clamped to `size - 1`. -/

/-- Result of range negotiation. -/
inductive RangeResult where
  | noRange : RangeResult
  | invalid : RangeResult
  | unsatisfiable : RangeResult
  | valid (s e : Nat) : RangeResult
deriving DecidableEq

/-- Modelled from the spec: parse and validate one byte-range spec
against the file size. -/
def parseSpec (size : Nat) (spec : Str) : RangeResult :=
  match splitOnChar '-' spec with
  | [a, b] =>
    if a = [] then
      if b = [] then .invalid
      else
        match parseNatChars b with
        | none => .invalid
        | some n =>
          if size = 0 ∨ n = 0 then .unsatisfiable
          else .valid (size - n) (size - 1)
    else
      match parseNatChars a with
      | none => .invalid
      | some s =>
        if b = [] then
          if size ≤ s then .unsatisfiable else .valid s (size - 1)
        else
          match parseNatChars b with
          | none => .invalid
          | some e =>
            if size ≤ s ∨ min e (size - 1) < s then .unsatisfiable
            else .valid s (min e (size - 1))
  | _ => .invalid

/-- Modelled from the spec: parse the Range header; a missing header means
no range, a header not of the form `bytes=<one spec>` (including
multi-range requests) is syntactically invalid and ignored. -/
def parseRange (size : Nat) (rng : Option Str) : RangeResult :=
  match rng with
  | none => .noRange
  | some h =>
    if h.take 6 = "bytes=".data then
      match splitOnChar ',' (h.drop 6) with
      | [spec] => parseSpec size spec
      | _ => .invalid
    else .invalid

/-! ## Serving a resolved file -/

/-- Modelled from the spec: a strong ETag derived from size and
modification time. -/
def mkEtag (size mtime : Nat) : Str :=
  "\"".data ++ natToChars size ++ "-".data ++ natToChars mtime ++ "\"".data

/-- Modelled from the spec: serve the file at the resolved segments —
evaluate `If-None-Match` against the computed ETag (304 on match), then
negotiate the byte range (416 when unsatisfiable, 206 for a valid span,
otherwise the full body with 200).  HEAD requests get identical status
and headers with an empty body. -/
def serveFile (cfg : Config) (isHead : Bool) (inm rng : Option Str)
    (segs : List Str) (contents : Str) (mtime : Nat) : Outcome :=
  let size := contents.length
  let tag := mkEtag size mtime
  let etagHdr := if cfg.etag then some tag else none
  if cfg.etag = true ∧ inm = some tag then
    .response { status := 304, etagH := etagHdr }
  else
    match parseRange size rng with
    | .unsatisfiable =>
      .response
        { status := 416,
          contentRange := some ("bytes */".data ++ natToChars size),
          body := "RangeNotSatisfiableError".data }
    | .valid s e =>
      .response
        { status := 206,
          contentRange := some ("bytes ".data ++ natToChars s ++ "-".data ++
            natToChars e ++ "/".data ++ natToChars size),
          contentLength := some (e - s + 1),
          etagH := etagHdr,
          body := if isHead then [] else (contents.drop s).take (e - s + 1),
          srcPath := some segs }
    | _ =>
      .response
        { status := 200,
          contentLength := some size,
          etagH := etagHdr,
          body := if isHead then [] else contents,
          srcPath := some segs }

/-! ## Directory redirect -/

/-- Drop every leading slash. -/
def dropSlashes : Str → Str
  | [] => []
  | c :: rest => if c = '/' then dropSlashes rest else c :: rest

/-- Modelled from the spec: collapse a leading run of slashes to a single
slash, so the Location is never protocol-relative. -/
def collapseLeadingSlashes : Str → Str
  | [] => []
  | c :: rest => if c = '/' then '/' :: dropSlashes rest else c :: rest

/-- Does the character list start with two slashes? -/
def startsDoubleSlash : Str → Bool
  | c :: d :: _ => c = '/' && d = '/'
  | _ => false

/-- The HTML link used in the redirect body. -/
def htmlLink (loc : Str) : Str :=
  "<a href=\"".data ++ loc ++ "\">".data ++ loc ++ "</a>".data

/-- Modelled from the spec: redirect to the directory path with a
trailing slash, preserving the query string and stripping a
protocol-relative double-slash prefix; the 303 body links to the
location. -/
def redirectResp (raw rest : Str) : Response :=
  let loc := collapseLeadingSlashes (raw ++ "/".data) ++ rest
  { status := 303, location := some loc,
    body := "Redirecting to ".data ++ htmlLink loc }

/-! ## The request handler -/

/-- Is a path segment a dotfile segment? -/
def isDotSeg : Str → Bool
  | '.' :: _ => true
  | _ => false

/-- Does the resolved path contain a dotfile segment? -/
def hasDotSegment (segs : List Str) : Bool := segs.any isDotSeg

/-- First configured index name resolving to a file inside the directory. -/
def findIndex : List Str → Fs → List Str → Option (Str × Str × Nat)
  | [], _, _ => none
  | n :: ns, fs, segs =>
    match lookupFs fs (segs ++ [n]) with
    | some (.file c m) => some (n, c, m)
    | _ => findIndex ns fs segs

/-- Modelled from the spec: act on the filesystem entry at the resolved
segments — serve a file, serve a directory index when the path has a
trailing slash, redirect a directory without one (when `redirect` is
enabled), and otherwise fall through or 404. -/
def handleLookup (cfg : Config) (fs : Fs) (isHead : Bool) (inm rng : Option Str)
    (segs : List Str) (raw rest : Str) (trail : Bool) : Outcome :=
  match lookupFs fs segs with
  | some (.file c m) => serveFile cfg isHead inm rng segs c m
  | some .dir =>
    if trail then
      match findIndex cfg.index fs segs with
      | some (n, c, m) => serveFile cfg isHead inm rng (segs ++ [n]) c m
      | none => notFoundOut cfg
    else if cfg.redirect then .response (redirectResp raw rest)
    else notFoundOut cfg
  | none => notFoundOut cfg

/-- Modelled from the spec: the Policy Controller — reject non-GET/HEAD
methods (405 or fallthrough), resolve the URL (400 on malformed encoding,
403 on traversal escape, each subject to fallthrough), apply the dotfile
policy, and act on the filesystem entry. -/
def handleRequest (cfg : Config) (fs : Fs) (req : Request) : Outcome :=
  if req.method = "GET".data ∨ req.method = "HEAD".data then
    match resolveUrl req.url with
    | .malformed => if cfg.fallthrough then .fallthrough else .response badRequestResp
    | .escape => if cfg.fallthrough then .fallthrough else .response forbiddenResp
    | .ok segs raw rest trail =>
      match cfg.dotfiles, hasDotSegment segs with
      | .deny, true => if cfg.fallthrough then .fallthrough else .response forbiddenResp
      | .ignore, true => notFoundOut cfg
      | _, _ =>
        handleLookup cfg fs (if req.method = "HEAD".data then true else false)
          req.ifNoneMatch req.rangeH segs raw rest trail
  else if cfg.fallthrough then .fallthrough
  else .response methodNotAllowedResp

/-! ## Lemmas about range parsing -/

/-- The Range header requesting the inclusive span from `s` to `e`. -/
def rangeHdr (s e : Nat) : Str :=
  "bytes=".data ++ natToChars s ++ "-".data ++ natToChars e

/-- The open-ended Range header requesting from `s` to the end. -/
def rangeHdrOpen (s : Nat) : Str := "bytes=".data ++ natToChars s ++ "-".data

/-- A Range header carrying two comma-separated byte-range specs. -/
def rangeHdrMulti (s1 e1 s2 e2 : Nat) : Str :=
  "bytes=".data ++ natToChars s1 ++ "-".data ++ natToChars e1 ++ ",".data ++
    natToChars s2 ++ "-".data ++ natToChars e2

theorem hyphen_not_mem (n : Nat) : '-' ∉ natToChars n :=
  not_mem_natToChars_of_not_digit (by decide) n

theorem comma_not_mem (n : Nat) : ',' ∉ natToChars n :=
  not_mem_natToChars_of_not_digit (by decide) n

theorem comma_not_mem_pair (s e : Nat) :
    ',' ∉ natToChars s ++ "-".data ++ natToChars e := by
  intro h
  rcases List.mem_append.1 h with h1 | h2
  · rcases List.mem_append.1 h1 with h3 | h4
    · exact comma_not_mem s h3
    · simp at h4
  · exact comma_not_mem e h2

theorem splitOnChar_pair (s e : Nat) :
    splitOnChar '-' (natToChars s ++ "-".data ++ natToChars e) =
      [natToChars s, natToChars e] := by
  rw [List.append_assoc]
  show splitOnChar '-' (natToChars s ++ '-' :: natToChars e) = _
  rw [splitOnChar_append (natToChars e) (hyphen_not_mem s),
    splitOnChar_of_not_mem (hyphen_not_mem e)]

theorem parseSpec_pair {size s e : Nat} (hse : s ≤ e) (hes : e < size) :
    parseSpec size (natToChars s ++ "-".data ++ natToChars e) = .valid s e := by
  unfold parseSpec
  rw [splitOnChar_pair]
  dsimp only
  rw [if_neg (natToChars_ne_nil s)]
  rw [parseNatChars_natToChars s]
  dsimp only
  rw [if_neg (natToChars_ne_nil e)]
  rw [parseNatChars_natToChars e]
  dsimp only
  rw [if_neg (by omega : ¬(size ≤ s ∨ min e (size - 1) < s))]
  rw [Nat.min_eq_left (by omega)]

theorem parseSpec_pair_unsat {size s : Nat} (e : Nat) (hs : size ≤ s) :
    parseSpec size (natToChars s ++ "-".data ++ natToChars e) = .unsatisfiable := by
  unfold parseSpec
  rw [splitOnChar_pair]
  dsimp only
  rw [if_neg (natToChars_ne_nil s)]
  rw [parseNatChars_natToChars s]
  dsimp only
  rw [if_neg (natToChars_ne_nil e)]
  rw [parseNatChars_natToChars e]
  dsimp only
  rw [if_pos (Or.inl hs)]

theorem parseSpec_open_unsat {size s : Nat} (hs : size ≤ s) :
    parseSpec size (natToChars s ++ "-".data) = .unsatisfiable := by
  unfold parseSpec
  have hsplit : splitOnChar '-' (natToChars s ++ "-".data) = [natToChars s, []] := by
    have : natToChars s ++ "-".data = natToChars s ++ '-' :: ([] : Str) := rfl
    rw [this, splitOnChar_append ([] : Str) (hyphen_not_mem s)]
    rfl
  rw [hsplit]
  dsimp only
  rw [if_neg (natToChars_ne_nil s)]
  rw [parseNatChars_natToChars s]
  dsimp only
  rw [if_pos rfl, if_pos hs]

theorem parseRange_one (size : Nat) (spec : Str) (hm : ',' ∉ spec) :
    parseRange size (some ("bytes=".data ++ spec)) = parseSpec size spec := by
  unfold parseRange
  dsimp only
  rw [List.take_left' (by rfl), if_pos rfl, List.drop_left' (by rfl),
    splitOnChar_of_not_mem hm]

theorem parseRange_pair {size s e : Nat} (hse : s ≤ e) (hes : e < size) :
    parseRange size (some (rangeHdr s e)) = .valid s e := by
  unfold rangeHdr
  rw [List.append_assoc, List.append_assoc, ← List.append_assoc (natToChars s)]
  rw [parseRange_one size _ (comma_not_mem_pair s e)]
  exact parseSpec_pair hse hes

theorem parseRange_pair_unsat {size s : Nat} (e : Nat) (hs : size ≤ s) :
    parseRange size (some (rangeHdr s e)) = .unsatisfiable := by
  unfold rangeHdr
  rw [List.append_assoc, List.append_assoc, ← List.append_assoc (natToChars s)]
  rw [parseRange_one size _ (comma_not_mem_pair s e)]
  exact parseSpec_pair_unsat e hs

theorem parseRange_open_unsat {size s : Nat} (hs : size ≤ s) :
    parseRange size (some (rangeHdrOpen s)) = .unsatisfiable := by
  unfold rangeHdrOpen
  rw [List.append_assoc]
  rw [parseRange_one size _ (by intro h; rcases List.mem_append.1 h with h1 | h2
      <;> first | exact comma_not_mem s h1 | simp at h2)]
  exact parseSpec_open_unsat hs

theorem parseRange_multi (size s1 e1 s2 e2 : Nat) :
    parseRange size (some (rangeHdrMulti s1 e1 s2 e2)) = .invalid := by
  unfold rangeHdrMulti parseRange
  have hshape : "bytes=".data ++ natToChars s1 ++ "-".data ++ natToChars e1 ++
      ",".data ++ natToChars s2 ++ "-".data ++ natToChars e2 =
      "bytes=".data ++ ((natToChars s1 ++ "-".data ++ natToChars e1) ++
        ',' :: (natToChars s2 ++ "-".data ++ natToChars e2)) := by
    simp [List.append_assoc]
  rw [hshape]
  dsimp only
  rw [List.take_left' (by rfl), if_pos rfl, List.drop_left' (by rfl)]
  rw [splitOnChar_append _ (comma_not_mem_pair s1 e1),
    splitOnChar_of_not_mem (comma_not_mem_pair s2 e2)]

/-! ## Reduction lemmas for the handler -/

theorem handle_escape {cfg : Config} {fs : Fs} {req : Request}
    (hm : req.method = "GET".data ∨ req.method = "HEAD".data)
    (hr : resolveUrl req.url = .escape) :
    handleRequest cfg fs req =
      (if cfg.fallthrough then .fallthrough else .response forbiddenResp) := by
  unfold handleRequest
  rw [if_pos hm, hr]

theorem handle_file {cfg : Config} {fs : Fs} {req : Request} {segs : List Str}
    {raw rest : Str} {trail : Bool} {contents : Str} {mtime : Nat}
    (hm : req.method = "GET".data)
    (hr : resolveUrl req.url = .ok segs raw rest trail)
    (hd : hasDotSegment segs = false)
    (hl : lookupFs fs segs = some (.file contents mtime)) :
    handleRequest cfg fs req =
      serveFile cfg false req.ifNoneMatch req.rangeH segs contents mtime := by
  unfold handleRequest
  rw [if_pos (Or.inl hm), hr]
  dsimp only
  rw [hd, hm, if_neg (by decide : ¬("GET".data : Str) = "HEAD".data)]
  cases cfg.dotfiles <;> simp only [handleLookup, hl]

theorem handle_dir {cfg : Config} {fs : Fs} {req : Request} {segs : List Str}
    {raw rest : Str}
    (hm : req.method = "GET".data)
    (hr : resolveUrl req.url = .ok segs raw rest false)
    (hd : hasDotSegment segs = false)
    (hl : lookupFs fs segs = some .dir)
    (hred : cfg.redirect = true) :
    handleRequest cfg fs req = .response (redirectResp raw rest) := by
  unfold handleRequest
  rw [if_pos (Or.inl hm), hr]
  dsimp only
  rw [hd, hm, if_neg (by decide : ¬("GET".data : Str) = "HEAD".data)]
  cases cfg.dotfiles <;>
    simp only [handleLookup, hl, hred, Bool.false_eq_true, if_false, if_true]

/-! ## Lemmas about the redirect location -/

theorem dropWhile_notQ (url : Str) :
    url.dropWhile notQ = [] ∨ ∃ t, url.dropWhile notQ = '?' :: t := by
  induction url with
  | nil => left; rfl
  | cons c rest ih =>
    by_cases hc : c = '?'
    · subst hc
      right
      exact ⟨rest, by simp [List.dropWhile_cons, notQ]⟩
    · rw [List.dropWhile_cons, if_pos (by simp [notQ, hc])]
      exact ih

theorem dropSlashes_head (l : Str) :
    dropSlashes l = [] ∨ ∃ c cs, dropSlashes l = c :: cs ∧ c ≠ '/' := by
  induction l with
  | nil => left; rfl
  | cons c rest ih =>
    by_cases hc : c = '/'
    · subst hc
      unfold dropSlashes
      rw [if_pos rfl]
      exact ih
    · right
      exact ⟨c, rest, by unfold dropSlashes; rw [if_neg hc], hc⟩

theorem sds_cons_ne {c : Char} (hc : c ≠ '/') (l : Str) :
    startsDoubleSlash (c :: l) = false := by
  cases l <;> simp [startsDoubleSlash, hc]

theorem sds_slash_ne {d : Char} (hd : d ≠ '/') (l : Str) :
    startsDoubleSlash ('/' :: d :: l) = false := by
  simp [startsDoubleSlash, hd]

theorem sds_slash_tail {rest : Str} (hq : rest = [] ∨ ∃ t, rest = '?' :: t) :
    startsDoubleSlash ('/' :: rest) = false := by
  rcases hq with h | ⟨t, h⟩ <;> subst h
  · rfl
  · exact sds_slash_ne (by decide) t

theorem redirect_loc_no_double (raw rest : Str)
    (hq : rest = [] ∨ ∃ t, rest = '?' :: t) :
    startsDoubleSlash (collapseLeadingSlashes (raw ++ "/".data) ++ rest) = false := by
  cases raw with
  | nil =>
    show startsDoubleSlash (collapseLeadingSlashes ['/'] ++ rest) = false
    exact sds_slash_tail hq
  | cons c r0 =>
    rw [List.cons_append]
    by_cases hc : c = '/'
    · subst hc
      unfold collapseLeadingSlashes
      dsimp only
      rw [if_pos rfl]
      rcases dropSlashes_head (r0 ++ "/".data) with hnil | ⟨d, ds, hds, hdne⟩
      · rw [hnil]
        exact sds_slash_tail hq
      · rw [hds, List.cons_append, List.cons_append]
        exact sds_slash_ne hdne _
    · unfold collapseLeadingSlashes
      dsimp only
      rw [if_neg hc, List.cons_append]
      exact sds_cons_ne hc _

theorem collapse_id {raw : Str} (hds : startsDoubleSlash raw = false)
    (hts : endsSlash raw = false) :
    collapseLeadingSlashes (raw ++ "/".data) = raw ++ "/".data := by
  cases raw with
  | nil => rfl
  | cons c r0 =>
    rw [List.cons_append]
    by_cases hc : c = '/'
    · subst hc
      cases r0 with
      | nil => simp [endsSlash] at hts
      | cons d r1 =>
        have hd : d ≠ '/' := by
          intro h
          subst h
          simp [startsDoubleSlash] at hds
        unfold collapseLeadingSlashes
        dsimp only
        rw [if_pos rfl, List.cons_append]
        unfold dropSlashes
        rw [if_neg hd]
    · show (if c = '/' then '/' :: dropSlashes (r0 ++ "/".data)
          else c :: (r0 ++ "/".data)) = c :: (r0 ++ "/".data)
      rw [if_neg hc]

/-! ## Lemmas about traversal protection -/

theorem normSegs_no_dotdot : ∀ (l acc res : List Str),
    (∀ x ∈ acc, x ≠ "..".data) → normSegs l acc = some res →
    ∀ x ∈ res, x ≠ "..".data := by
  intro l
  induction l with
  | nil =>
    intro acc res hacc h
    unfold normSegs at h
    injection h with h
    subst h
    intro x hx
    exact hacc x (List.mem_reverse.1 hx)
  | cons s rest ih =>
    intro acc res hacc h
    unfold normSegs at h
    by_cases hdd : s = "..".data
    · rw [if_pos hdd] at h
      cases acc with
      | nil => simp at h
      | cons a tail =>
        exact ih tail res (fun x hx => hacc x (List.mem_cons_of_mem a hx)) h
    · rw [if_neg hdd] at h
      by_cases hsk : s = [] ∨ s = ".".data
      · rw [if_pos hsk] at h
        exact ih acc res hacc h
      · rw [if_neg hsk] at h
        refine ih (s :: acc) res (fun x hx => ?_) h
        rcases List.mem_cons.1 hx with h1 | h2
        · subst h1; exact hdd
        · exact hacc x h2

theorem resolveUrl_ok_inv {url : Str} {segs : List Str} {raw rest : Str} {trail : Bool}
    (h : resolveUrl url = .ok segs raw rest trail) :
    raw = url.takeWhile notQ ∧ rest = url.dropWhile notQ ∧
    (∃ dec, decodePct (url.takeWhile notQ) = some dec ∧
      normSegs (splitOnChar '/' dec) [] = some segs) ∧
    trail = endsSlash (url.takeWhile notQ) := by
  unfold resolveUrl at h
  dsimp only at h
  cases hdec : decodePct (url.takeWhile notQ) with
  | none => rw [hdec] at h; simp at h
  | some dec =>
    rw [hdec] at h
    dsimp only at h
    cases hn : normSegs (splitOnChar '/' dec) [] with
    | none => rw [hn] at h; simp at h
    | some segs0 =>
      rw [hn] at h
      injection h with h1 h2 h3 h4
      exact ⟨h2.symm, h3.symm, ⟨dec, rfl, by rw [hn, h1]⟩, h4.symm⟩

theorem resolveUrl_no_dotdot {url : Str} {segs : List Str} {raw rest : Str} {trail : Bool}
    (h : resolveUrl url = .ok segs raw rest trail) :
    ∀ x ∈ segs, x ≠ "..".data := by
  obtain ⟨-, -, ⟨dec, -, hn⟩, -⟩ := resolveUrl_ok_inv h
  exact normSegs_no_dotdot _ [] segs (by simp) hn

theorem resolveUrl_rest {url : Str} {segs : List Str} {raw rest : Str} {trail : Bool}
    (h : resolveUrl url = .ok segs raw rest trail) :
    rest = [] ∨ ∃ t, rest = '?' :: t := by
  obtain ⟨-, hrest, -⟩ := resolveUrl_ok_inv h
  rw [hrest]
  exact dropWhile_notQ url

/-! ## The path actually served is the resolved one -/

theorem serveFile_src {cfg : Config} {isHead : Bool} {inm rng : Option Str}
    {segs : List Str} {contents : Str} {mtime : Nat} {r : Response} {sp : List Str}
    (h : serveFile cfg isHead inm rng segs contents mtime = .response r)
    (hsp : r.srcPath = some sp) : sp = segs := by
  unfold serveFile at h
  dsimp only at h
  split at h
  · injection h with h
    subst h
    simp at hsp
  · split at h
    · injection h with h
      subst h
      simp at hsp
    · injection h with h
      subst h
      simp only [Option.some.injEq] at hsp
      exact hsp.symm
    · injection h with h
      subst h
      simp only [Option.some.injEq] at hsp
      exact hsp.symm

theorem findIndex_mem : ∀ (names : List Str) (fs : Fs) (segs : List Str)
    {n : Str} {c : Str} {m : Nat},
    findIndex names fs segs = some (n, c, m) → n ∈ names := by
  intro names
  induction names with
  | nil =>
    intro fs segs n c m h
    unfold findIndex at h
    exact Option.noConfusion h
  | cons a ns ih =>
    intro fs segs n c m h
    unfold findIndex at h
    split at h
    · simp only [Option.some.injEq, Prod.mk.injEq] at h
      obtain ⟨rfl, -⟩ := h
      exact List.mem_cons_self a ns
    · exact List.mem_cons_of_mem a (ih fs segs h)

theorem notFoundOut_src {cfg : Config} {r : Response} {sp : List Str}
    (h : notFoundOut cfg = .response r) (hsp : r.srcPath = some sp) : False := by
  unfold notFoundOut at h
  split at h
  · exact absurd h (by simp)
  · injection h with h
    subst h
    simp [notFoundResp] at hsp

theorem handleLookup_src {cfg : Config} {fs : Fs} {isHead : Bool} {inm rng : Option Str}
    {segs : List Str} {raw rest : Str} {trail : Bool} {r : Response} {sp : List Str}
    (h : handleLookup cfg fs isHead inm rng segs raw rest trail = .response r)
    (hsp : r.srcPath = some sp) :
    sp = segs ∨ ∃ n, n ∈ cfg.index ∧ sp = segs ++ [n] := by
  unfold handleLookup at h
  cases hl : lookupFs fs segs with
  | none =>
    rw [hl] at h
    exact absurd hsp (by cases notFoundOut_src h hsp)
  | some ent =>
    rw [hl] at h
    cases ent with
    | file c m =>
      dsimp only at h
      exact Or.inl (serveFile_src h hsp)
    | dir =>
      dsimp only at h
      cases trail with
      | true =>
        rw [if_pos rfl] at h
        cases hfi : findIndex cfg.index fs segs with
        | none =>
          rw [hfi] at h
          exact absurd hsp (by cases notFoundOut_src h hsp)
        | some t =>
          rw [hfi] at h
          obtain ⟨n, c, m⟩ := t
          dsimp only at h
          exact Or.inr ⟨n, findIndex_mem cfg.index fs segs hfi, serveFile_src h hsp⟩
      | false =>
        rw [if_neg (by decide : ¬(false = true))] at h
        split at h
        · injection h with h
          subst h
          simp [redirectResp] at hsp
        · exact absurd hsp (by cases notFoundOut_src h hsp)

theorem handle_src {cfg : Config} {fs : Fs} {req : Request} {r : Response} {sp : List Str}
    (h : handleRequest cfg fs req = .response r)
    (hsp : r.srcPath = some sp) :
    ∃ segs raw rest trail, resolveUrl req.url = .ok segs raw rest trail ∧
      (sp = segs ∨ ∃ n, n ∈ cfg.index ∧ sp = segs ++ [n]) := by
  unfold handleRequest at h
  split at h
  · cases hres : resolveUrl req.url with
    | malformed =>
      rw [hres] at h
      dsimp only at h
      split at h
      · exact absurd h (by simp)
      · injection h with h
        subst h
        simp [badRequestResp] at hsp
    | escape =>
      rw [hres] at h
      dsimp only at h
      split at h
      · exact absurd h (by simp)
      · injection h with h
        subst h
        simp [forbiddenResp] at hsp
    | ok segs raw rest trail =>
      rw [hres] at h
      dsimp only at h
      refine ⟨segs, raw, rest, trail, rfl, ?_⟩
      split at h
      · split at h
        · exact absurd h (by simp)
        · injection h with h
          subst h
          simp [forbiddenResp] at hsp
      · exact absurd hsp (by cases notFoundOut_src h hsp)
      · exact handleLookup_src h hsp
  · split at h
    · exact absurd h (by simp)
    · injection h with h
      subst h
      simp [methodNotAllowedResp] at hsp

/-! ## The Koa adapter, embedded from src/index.js -/

/-- A Koa context: the status, the `respond` flag, the raw Node request
and response objects, and all remaining properties, abstracted. -/
structure Ctx (Req Res Rest : Type) where
  status : Nat
  respond : Bool
  req : Req
  res : Res
  rest : Rest

/-- How one invocation of the wrapped serve-static handler completes:
either it invokes its continuation callback (with an optional error), or
it writes the response itself and never calls the callback. -/
inductive HandlerCompletion (E : Type) where
  | callback (err : Option E) : HandlerCompletion E
  | responded : HandlerCompletion E

/-- The state of the promise returned by the middleware. -/
inductive PromiseState (A E : Type) where
  | pending : PromiseState A E
  | fulfilled (val : A) : PromiseState A E
  | rejected (reason : E) : PromiseState A E

/-- Embedded from src/index.js: the middleware body.  It rewrites a 404
status to 200, disables the framework response by setting `respond` to
false, and hands `ctx.req` and `ctx.res` to the wrapped handler with the
promise `reject` continuation as the completion callback.  `resolve` is
never called: the promise is rejected with the callback argument when
the handler calls back, and stays pending when the handler responds. -/
def middleware {Req Res Rest E : Type}
    (fn : Req → Res → HandlerCompletion E) (ctx : Ctx Req Res Rest) :
    Ctx Req Res Rest × PromiseState Unit (Option E) :=
  let ctx1 := if ctx.status = 404 then { ctx with status := 200 } else ctx
  let ctx2 := { ctx1 with respond := false }
  let promise :=
    match fn ctx2.req ctx2.res with
    | .callback err => PromiseState.rejected err
    | .responded => PromiseState.pending
  (ctx2, promise)

/-! ## The claims -/

/-- C1: a request whose path resolves outside the root (by literal or
percent-encoded `..` traversal) is never served a file: with
fallthrough=false the outcome is the 403 Forbidden response and with
fallthrough=true it falls through, in both cases independently of the
configured root; and every content response the handler ever produces
serves a path whose segments contain no `..`, hence a path inside the
root. -/
theorem claim_c1 :
    (∀ (cfg : Config) (fs : Fs) (req : Request),
      (req.method = "GET".data ∨ req.method = "HEAD".data) →
      resolveUrl req.url = .escape →
      handleRequest cfg fs req =
          (if cfg.fallthrough then .fallthrough else .response forbiddenResp) ∧
        forbiddenResp.status = 403 ∧
        ∀ root1 root2 : Str,
          handleRequest { cfg with root := root1 } fs req =
            handleRequest { cfg with root := root2 } fs req) ∧
    (∀ (cfg : Config) (fs : Fs) (req : Request) (r : Response) (sp : List Str),
      (∀ n ∈ cfg.index, n ≠ "..".data) →
      handleRequest cfg fs req = .response r → r.srcPath = some sp →
      ∀ x ∈ sp, x ≠ "..".data) := by
  constructor
  · intro cfg fs req hm hr
    refine ⟨handle_escape hm hr, rfl, fun root1 root2 => ?_⟩
    rw [@handle_escape { cfg with root := root1 } fs req hm hr,
      @handle_escape { cfg with root := root2 } fs req hm hr]
  · intro cfg fs req r sp hidx h hsp x hx
    obtain ⟨segs, raw, rest, trail, hres, hcase⟩ := handle_src h hsp
    rcases hcase with rfl | ⟨n, hn, rfl⟩
    · exact resolveUrl_no_dotdot hres x hx
    · rcases List.mem_append.1 hx with h1 | h2
      · exact resolveUrl_no_dotdot hres x h1
      · simp only [List.mem_singleton] at h2
        subst h2
        exact hidx x hn

/-- Witness for C1: the percent-encoded traversal
`/users/%2e%2e/%2e%2e/todo.txt` with fallthrough disabled yields the 403
Forbidden response. -/
theorem claim_c1_witness :
    handleRequest { fallthrough := false } []
        { method := "GET".data, url := "/users/%2e%2e/%2e%2e/todo.txt".data } =
      .response forbiddenResp := by
  have h := (claim_c1.1 { fallthrough := false } []
    { method := "GET".data, url := "/users/%2e%2e/%2e%2e/todo.txt".data }
    (Or.inl rfl) (by decide)).1
  rw [h]
  decide

/-- C7: any request whose method is neither GET nor HEAD falls through
when fallthrough=true, and otherwise receives the 405 response carrying
the header `Allow: GET, HEAD`. -/
theorem claim_c7 (cfg : Config) (fs : Fs) (req : Request)
    (h1 : req.method ≠ "GET".data) (h2 : req.method ≠ "HEAD".data) :
    handleRequest cfg fs req =
        (if cfg.fallthrough then .fallthrough else .response methodNotAllowedResp) ∧
      methodNotAllowedResp.status = 405 ∧
      methodNotAllowedResp.allow = some "GET, HEAD".data := by
  refine ⟨?_, rfl, rfl⟩
  unfold handleRequest
  rw [if_neg (by simp [h1, h2])]

/-- Witness for C7: an OPTIONS request with fallthrough disabled receives
the 405 response. -/
theorem claim_c7_witness :
    handleRequest { fallthrough := false } []
        { method := "OPTIONS".data, url := "/todo.txt".data } =
      .response methodNotAllowedResp := by
  have h := (claim_c7 { fallthrough := false } []
    { method := "OPTIONS".data, url := "/todo.txt".data }
    (by decide) (by decide)).1
  rw [h]
  decide

/-! ## Configuration-time errors, modelled from the spec -/

/-- A JavaScript value as passed to the configuration call. -/
inductive JsVal where
  | undef : JsVal
  | str (s : Str) : JsVal
  | num (n : Int) : JsVal
  | fn : JsVal
  | boolV (b : Bool) : JsVal
deriving DecidableEq

/-- The options object as passed to the configuration call. -/
structure JsOptions where
  setHeaders : JsVal := .undef
  fallthroughOpt : JsVal := .undef
deriving DecidableEq

/-- Modelled from the spec: constructed-handler errors are produced
synchronously at configuration time — before any request exists — when
the root is missing or not a string, or when the header-mutation hook is
provided but is not callable.  The external serve-static constructor
performing these checks is not part of src/. -/
def serveStaticInit (root : JsVal) (opts : JsOptions) : Except Str Config :=
  match root with
  | .str s =>
    match opts.setHeaders with
    | .undef => .ok { root := s }
    | .fn => .ok { root := s }
    | _ => .error "option setHeaders must be a function".data
  | .undef => .error "root path required".data
  | _ => .error "root path must be a string".data

/-- C8: configuration errors are synchronous (the configuration call
itself returns them, no request involved) and independent of the other
options: a missing root yields the message `root path required`, a
non-string root yields `root path must be a string`, and a non-function
setHeaders yields `option setHeaders must be a function`. -/
theorem claim_c8 :
    (∀ opts : JsOptions,
      serveStaticInit .undef opts = .error "root path required".data) ∧
    (∀ (v : JsVal) (opts : JsOptions), v ≠ .undef → (∀ s, v ≠ .str s) →
      serveStaticInit v opts = .error "root path must be a string".data) ∧
    (∀ (s : Str) (opts : JsOptions) (v : JsVal), v ≠ .undef → v ≠ .fn →
      serveStaticInit (.str s) { opts with setHeaders := v } =
        .error "option setHeaders must be a function".data) := by
  refine ⟨fun opts => rfl, ?_, ?_⟩
  · intro v opts h1 h2
    cases v with
    | undef => exact absurd rfl h1
    | str s => exact absurd rfl (h2 s)
    | num n => rfl
    | fn => rfl
    | boolV b => rfl
  · intro s opts v h1 h2
    cases v with
    | undef => exact absurd rfl h1
    | fn => exact absurd rfl h2
    | str t => rfl
    | num n => rfl
    | boolV b => rfl

/-- Witness for C8: the root `42` and a numeric setHeaders option produce
the two configuration errors. -/
theorem claim_c8_witness :
    serveStaticInit (.num 42) {} = .error "root path must be a string".data ∧
    serveStaticInit (.str "public".data) { setHeaders := .num 3 } =
      .error "option setHeaders must be a function".data :=
  ⟨claim_c8.2.1 (.num 42) {} (fun h => JsVal.noConfusion h)
      (fun _ h => JsVal.noConfusion h),
    claim_c8.2.2 "public".data {} (.num 3) (fun h => JsVal.noConfusion h)
      (fun h => JsVal.noConfusion h)⟩

/-- C9: the promise returned by the middleware is never fulfilled; it is
rejected with exactly the callback argument when and only when the
wrapped handler invokes its completion callback, and stays pending
forever when the handler serves the response itself. -/
theorem claim_c9 {Req Res Rest E : Type} (fn : Req → Res → HandlerCompletion E)
    (ctx : Ctx Req Res Rest) :
    (∀ u : Unit, (middleware fn ctx).2 ≠ .fulfilled u) ∧
    (∀ e : Option E,
      ((middleware fn ctx).2 = .rejected e ↔ fn ctx.req ctx.res = .callback e)) ∧
    (fn ctx.req ctx.res = .responded ↔ (middleware fn ctx).2 = .pending) := by
  unfold middleware
  by_cases h404 : ctx.status = 404 <;>
    simp only [h404, if_true, if_false, reduceIte] <;>
    cases hf : fn ctx.req ctx.res <;>
    simp [hf]

/-- C10: before delegating, the middleware sets `respond` to false and
rewrites the status from 404 to 200 exactly when the status was 404 at
entry; it leaves `req`, `res` and every other context property
untouched, and it invokes the wrapped handler on exactly `ctx.req` and
`ctx.res`. -/
theorem claim_c10 {Req Res Rest E : Type} (fn : Req → Res → HandlerCompletion E)
    (ctx : Ctx Req Res Rest) :
    (middleware fn ctx).1.respond = false ∧
    (middleware fn ctx).1.status = (if ctx.status = 404 then 200 else ctx.status) ∧
    (middleware fn ctx).1.req = ctx.req ∧
    (middleware fn ctx).1.res = ctx.res ∧
    (middleware fn ctx).1.rest = ctx.rest ∧
    (middleware fn ctx).2 =
      (match fn ctx.req ctx.res with
        | .callback err => PromiseState.rejected err
        | .responded => PromiseState.pending) := by
  unfold middleware
  by_cases h404 : ctx.status = 404 <;>
    simp [h404]

/-- C2: a GET request for an existing file carrying the single byte-range
header `bytes=start-end` with `start ≤ end < size` receives status 206,
`Content-Range: bytes start-end/size`, `Content-Length = end-start+1`,
and a body of exactly `end-start+1` bytes. -/
theorem claim_c2 (cfg : Config) (fs : Fs) (url : Str) (segs : List Str)
    (raw rest : Str) (trail : Bool) (contents : Str) (mtime s e : Nat)
    (hres : resolveUrl url = .ok segs raw rest trail)
    (hdot : hasDotSegment segs = false)
    (hl : lookupFs fs segs = some (.file contents mtime))
    (hse : s ≤ e) (hes : e < contents.length) :
    ∃ r : Response,
      handleRequest cfg fs
          { method := "GET".data, url := url, rangeH := some (rangeHdr s e),
            ifNoneMatch := none } = .response r ∧
      r.status = 206 ∧
      r.contentRange = some ("bytes ".data ++ natToChars s ++ "-".data ++
        natToChars e ++ "/".data ++ natToChars contents.length) ∧
      r.contentLength = some (e - s + 1) ∧
      r.body.length = e - s + 1 := by
  have h1 := @handle_file cfg fs
    { method := "GET".data, url := url, rangeH := some (rangeHdr s e), ifNoneMatch := none }
    segs raw rest trail contents mtime rfl hres hdot hl
  dsimp only at h1
  rw [h1]
  unfold serveFile
  dsimp only
  rw [if_neg (by simp :
      ¬(cfg.etag = true ∧ (none : Option Str) = some (mkEtag contents.length mtime))),
    parseRange_pair hse hes]
  refine ⟨_, rfl, rfl, rfl, rfl, ?_⟩
  rw [if_neg (by decide : ¬(false = true))]
  simp only [List.length_take, List.length_drop]
  omega

/-- Witness for C2: the range `bytes=2-5` of the nine-byte file `nums`
yields 206 with `Content-Range: bytes 2-5/9` and four body bytes. -/
theorem claim_c2_witness :
    ∃ r : Response,
      handleRequest {} [(["nums".data], .file "123456789".data 7)]
          { method := "GET".data, url := "/nums".data, rangeH := some (rangeHdr 2 5),
            ifNoneMatch := none } = .response r ∧
      r.status = 206 ∧
      r.contentRange = some ("bytes ".data ++ natToChars 2 ++ "-".data ++
        natToChars 5 ++ "/".data ++ natToChars (List.length "123456789".data)) ∧
      r.contentLength = some (5 - 2 + 1) ∧
      r.body.length = 5 - 2 + 1 :=
  claim_c2 {} [(["nums".data], .file "123456789".data 7)] "/nums".data
    ["nums".data] "/nums".data [] false "123456789".data 7 2 5
    (by decide) (by decide) (by decide) (by omega) (by decide)

/-- C3: a GET request for an existing file whose Range header is
syntactically valid but unsatisfiable receives status 416 with
`Content-Range: bytes */size`; and a range whose first byte position is
at or past the file size — in either the `start-end` or the `start-`
form — parses as unsatisfiable. -/
theorem claim_c3 :
    (∀ (cfg : Config) (fs : Fs) (req : Request) (segs : List Str) (raw rest : Str)
      (trail : Bool) (contents : Str) (mtime : Nat),
      req.method = "GET".data →
      resolveUrl req.url = .ok segs raw rest trail →
      hasDotSegment segs = false →
      lookupFs fs segs = some (.file contents mtime) →
      req.ifNoneMatch = none →
      parseRange contents.length req.rangeH = .unsatisfiable →
      ∃ r : Response, handleRequest cfg fs req = .response r ∧ r.status = 416 ∧
        r.contentRange = some ("bytes */".data ++ natToChars contents.length)) ∧
    (∀ size s e : Nat, size ≤ s →
      parseRange size (some (rangeHdr s e)) = .unsatisfiable ∧
      parseRange size (some (rangeHdrOpen s)) = .unsatisfiable) := by
  constructor
  · intro cfg fs req segs raw rest trail contents mtime hm hres hdot hl hinm hrng
    rw [handle_file hm hres hdot hl]
    unfold serveFile
    dsimp only
    rw [hinm, if_neg (by simp :
      ¬(cfg.etag = true ∧ (none : Option Str) = some (mkEtag contents.length mtime))), hrng]
    exact ⟨_, rfl, rfl, rfl⟩
  · intro size s e hs
    exact ⟨parseRange_pair_unsat e hs, parseRange_open_unsat hs⟩

/-- Witness for C3: the range `bytes=9-50` of the nine-byte file `nums`
yields 416 with `Content-Range: bytes */9`. -/
theorem claim_c3_witness :
    (∃ r : Response,
      handleRequest {} [(["nums".data], .file "123456789".data 7)]
          { method := "GET".data, url := "/nums".data, rangeH := some (rangeHdr 9 50),
            ifNoneMatch := none } = .response r ∧
      r.status = 416 ∧
      r.contentRange = some ("bytes */".data ++
        natToChars (List.length "123456789".data))) ∧
    parseRange 9 (some (rangeHdr 9 50)) = .unsatisfiable := by
  constructor
  · exact claim_c3.1 {} [(["nums".data], .file "123456789".data 7)]
      { method := "GET".data, url := "/nums".data, rangeH := some (rangeHdr 9 50),
        ifNoneMatch := none }
      ["nums".data] "/nums".data [] false "123456789".data 7
      rfl (by decide) (by decide) (by decide) rfl (by decide)
  · exact (claim_c3.2 9 9 50 (by omega)).1

/-- C4: a GET request for an existing file whose Range header is
syntactically invalid is served the full body with status 200, and a
multi-range header such as `bytes=s1-e1,s2-e2` is syntactically invalid
for this engine. -/
theorem claim_c4 :
    (∀ (cfg : Config) (fs : Fs) (req : Request) (segs : List Str) (raw rest : Str)
      (trail : Bool) (contents : Str) (mtime : Nat),
      req.method = "GET".data →
      resolveUrl req.url = .ok segs raw rest trail →
      hasDotSegment segs = false →
      lookupFs fs segs = some (.file contents mtime) →
      req.ifNoneMatch = none →
      parseRange contents.length req.rangeH = .invalid →
      ∃ r : Response, handleRequest cfg fs req = .response r ∧ r.status = 200 ∧
        r.body = contents ∧ r.contentLength = some contents.length) ∧
    (∀ size s1 e1 s2 e2 : Nat,
      parseRange size (some (rangeHdrMulti s1 e1 s2 e2)) = .invalid) := by
  constructor
  · intro cfg fs req segs raw rest trail contents mtime hm hres hdot hl hinm hrng
    rw [handle_file hm hres hdot hl]
    unfold serveFile
    dsimp only
    rw [hinm, if_neg (by simp :
      ¬(cfg.etag = true ∧ (none : Option Str) = some (mkEtag contents.length mtime))), hrng]
    exact ⟨_, rfl, rfl,
      (if_neg (by decide : ¬(false = true)) :
        (if false = true then [] else contents) = contents), rfl⟩
  · intro size s1 e1 s2 e2
    exact parseRange_multi size s1 e1 s2 e2

/-- Witness for C4: the unparsable header `asdf` on the nine-byte file
`nums` yields 200 with the full body, and `bytes=0-1,3-4` parses as
invalid. -/
theorem claim_c4_witness :
    (∃ r : Response,
      handleRequest {} [(["nums".data], .file "123456789".data 7)]
          { method := "GET".data, url := "/nums".data, rangeH := some "asdf".data,
            ifNoneMatch := none } = .response r ∧
      r.status = 200 ∧ r.body = "123456789".data ∧
      r.contentLength = some (List.length "123456789".data)) ∧
    parseRange 9 (some (rangeHdrMulti 0 1 3 4)) = .invalid := by
  constructor
  · exact claim_c4.1 {} [(["nums".data], .file "123456789".data 7)]
      { method := "GET".data, url := "/nums".data, rangeH := some "asdf".data,
        ifNoneMatch := none }
      ["nums".data] "/nums".data [] false "123456789".data 7
      rfl (by decide) (by decide) (by decide) rfl (by decide)
  · exact claim_c4.2 9 0 1 3 4

/-- C5: a first GET of an existing file returns its computed ETag, and a
second GET of the same unchanged file sending that value as
If-None-Match yields status 304 with an empty body. -/
theorem claim_c5 (cfg : Config) (fs : Fs) (url : Str) (segs : List Str)
    (raw rest : Str) (trail : Bool) (contents : Str) (mtime : Nat)
    (hres : resolveUrl url = .ok segs raw rest trail)
    (hdot : hasDotSegment segs = false)
    (hl : lookupFs fs segs = some (.file contents mtime))
    (hetag : cfg.etag = true) :
    ∃ r1 : Response,
      handleRequest cfg fs { method := "GET".data, url := url } = .response r1 ∧
      r1.status = 200 ∧
      r1.etagH = some (mkEtag contents.length mtime) ∧
      ∃ r2 : Response,
        handleRequest cfg fs
            { method := "GET".data, url := url,
              ifNoneMatch := some (mkEtag contents.length mtime) } = .response r2 ∧
        r2.status = 304 ∧ r2.body = [] := by
  have h1 := @handle_file cfg fs
    { method := "GET".data, url := url, rangeH := none, ifNoneMatch := none }
    segs raw rest trail contents mtime rfl hres hdot hl
  have h2 := @handle_file cfg fs
    { method := "GET".data, url := url, rangeH := none,
                            ifNoneMatch := some (mkEtag contents.length mtime) }
    segs raw rest trail contents mtime rfl hres hdot hl
  dsimp only at h1 h2
  rw [h1, h2]
  unfold serveFile
  dsimp only
  rw [if_neg (by simp :
      ¬(cfg.etag = true ∧ (none : Option Str) = some (mkEtag contents.length mtime))),
    if_pos (⟨hetag, rfl⟩ : cfg.etag = true ∧
      some (mkEtag contents.length mtime) = some (mkEtag contents.length mtime)),
    (rfl : parseRange contents.length none = RangeResult.noRange), if_pos hetag]
  exact ⟨_, rfl, rfl, rfl, _, rfl, rfl, rfl⟩

/-- Witness for C5: the file `todo.txt` round-trips its ETag into a 304
with empty body. -/
theorem claim_c5_witness :
    ∃ r1 : Response,
      handleRequest {} [(["todo.txt".data], .file "- groceries".data 5)]
          { method := "GET".data, url := "/todo.txt".data } = .response r1 ∧
      r1.status = 200 ∧
      r1.etagH = some (mkEtag (List.length "- groceries".data) 5) ∧
      ∃ r2 : Response,
        handleRequest {} [(["todo.txt".data], .file "- groceries".data 5)]
            { method := "GET".data, url := "/todo.txt".data,
              ifNoneMatch := some (mkEtag (List.length "- groceries".data) 5) } =
          .response r2 ∧
        r2.status = 304 ∧ r2.body = [] :=
  claim_c5 {} [(["todo.txt".data], .file "- groceries".data 5)] "/todo.txt".data
    ["todo.txt".data] "/todo.txt".data [] false "- groceries".data 5
    (by decide) (by decide) (by decide) rfl

/-- C6: a GET request resolving to a directory without a trailing slash,
with redirect enabled, receives status 303 whose Location is the raw
request path plus a trailing slash with the query string preserved and a
leading double slash collapsed — so the Location never begins with
`//` — and whose body contains an HTML link to the location. -/
theorem claim_c6 (cfg : Config) (fs : Fs) (req : Request) (segs : List Str)
    (raw rest : Str)
    (hm : req.method = "GET".data)
    (hres : resolveUrl req.url = .ok segs raw rest false)
    (hdot : hasDotSegment segs = false)
    (hl : lookupFs fs segs = some .dir)
    (hred : cfg.redirect = true) :
    ∃ r : Response, handleRequest cfg fs req = .response r ∧
      r.status = 303 ∧
      r.location = some (collapseLeadingSlashes (raw ++ "/".data) ++ rest) ∧
      (startsDoubleSlash raw = false →
        r.location = some ((raw ++ "/".data) ++ rest)) ∧
      startsDoubleSlash (collapseLeadingSlashes (raw ++ "/".data) ++ rest) = false ∧
      (∃ pre post, r.body = pre ++ ("<a href=\"".data ++
        (collapseLeadingSlashes (raw ++ "/".data) ++ rest) ++ "\">".data) ++ post) := by
  have hts : endsSlash raw = false := by
    obtain ⟨hraw, -, -, htr⟩ := resolveUrl_ok_inv hres
    rw [hraw]
    exact htr.symm
  rw [handle_dir hm hres hdot hl hred]
  refine ⟨_, rfl, rfl, rfl, ?_, ?_, ?_⟩
  · intro hds
    show some (collapseLeadingSlashes (raw ++ "/".data) ++ rest) = _
    rw [collapse_id hds hts]
  · exact redirect_loc_no_double raw rest (resolveUrl_rest hres)
  · refine ⟨"Redirecting to ".data,
      (collapseLeadingSlashes (raw ++ "/".data) ++ rest) ++ "</a>".data, ?_⟩
    show "Redirecting to ".data ++
        htmlLink (collapseLeadingSlashes (raw ++ "/".data) ++ rest) = _
    simp [htmlLink, List.append_assoc]

/-- Witness for C6: the protocol-relative request `//users?name=john` for
the directory `users` redirects with status 303 to the collapsed
location `/users/?name=john`. -/
theorem claim_c6_witness :
    ∃ r : Response,
      handleRequest {} [(["users".data], .dir)]
          { method := "GET".data, url := "//users?name=john".data } = .response r ∧
      r.status = 303 ∧ r.location = some "/users/?name=john".data := by
  obtain ⟨r, hresp, hst, hloc, -, -, -⟩ := claim_c6 {} [(["users".data], .dir)]
    { method := "GET".data, url := "//users?name=john".data }
    ["users".data] "//users".data "?name=john".data
    rfl (by decide) (by decide) (by decide) rfl
  refine ⟨r, hresp, hst, ?_⟩
  rw [hloc]
  decide

end KoaServeStatic
